import Mathlib

/-!
Verification of the SuperConfig FFI benchmarking scripts.

This file shallowly embeds the statistics, ranking and reporting code of
`benchmark_python.py` and `simple_python_benchmark.py` (directory
`crates-archive/superconfig-ffi/reference/`) and proves or refutes the
specification's claims about them.

Modelling conventions:
* Python floats are modelled as exact rationals (`ℚ`).  All arithmetic in
  the scripts stays far away from the scale at which binary64 rounding
  could move a percentile index across an integer boundary, so the
  rational model is faithful for the stated claims.
* Python's stable `list.sort()` is modelled by Mathlib's
  `List.insertionSort`, which is also stable (earlier elements of the
  input stay before later elements with an equal key).
* `int(x)` applied to a non-negative float is `⌊x⌋` (truncation towards
  zero coincides with the floor for non-negative arguments).
* A Python function that can return `None` or raise is embedded with an
  `Option` result.
* In-place mutation of a list argument is made explicit by returning the
  final contents of the caller's list alongside the result
  (state-passing form).
-/

namespace SCBench

/-- The percentile index expression `int(n * p)` of both scripts, for the
sample count `n` and a non-negative percentile fraction `p` (for example
`95/100`): the floor of `n * p`, viewed as a natural number. -/
def idx (n : ℕ) (p : ℚ) : ℕ := (⌊(n : ℚ) * p⌋).toNat

/-- Python's builtin `min` over a list: the fold of the binary minimum
over the elements.  `min([])` raises `ValueError`; every call site in the
scripts guards non-emptiness, so the `0` default of the empty case is
never reached. -/
def pymin : List ℚ → ℚ
  | [] => 0
  | x :: xs => xs.foldl min x

/-- Python's builtin `max` over a list (see `pymin` about the empty case). -/
def pymax : List ℚ → ℚ
  | [] => 0
  | x :: xs => xs.foldl max x

/-- Embedding of `statistics.mean`: the sum of the elements divided by their count.
(`statistics.mean([])` raises; call sites guard non-emptiness.) -/
def pymean (l : List ℚ) : ℚ := l.sum / l.length

/-- Embedding of `statistics.median`: sort the data ascending; for odd length take the
middle element, for even length the average of the two middle elements.
(`statistics.median([])` raises; call sites guard non-emptiness.) -/
def pymedian (l : List ℚ) : ℚ :=
  let s := List.insertionSort (· ≤ ·) l
  let n := s.length
  if n % 2 = 1 then s.getD (n / 2) 0
  else (s.getD (n / 2 - 1) 0 + s.getD (n / 2) 0) / 2

/-- Sum of squared deviations from the mean, the shared numerator of the
sample and population variances. -/
def sumSqDev (l : List ℚ) : ℚ := (l.map (fun x => (x - pymean l) ^ 2)).sum

/-- The square of `statistics.stdev l`: the sample variance, dividing the
sum of squared deviations by `n - 1`.  `statistics.stdev` itself returns
the square root of this quantity; since the square root is injective on
non-negative reals, claims comparing standard deviations are settled by
comparing these squares. -/
def sampleVariance (l : List ℚ) : ℚ := sumSqDev l / ((l.length : ℚ) - 1)

/-- The square of `statistics.pstdev l`: the population variance, dividing
the sum of squared deviations by `n`. -/
def popVariance (l : List ℚ) : ℚ := sumSqDev l / (l.length : ℚ)

/-- The dictionary returned by `PythonBenchmark.calculate_stats`
(`benchmark_python.py`, lines 80–89).  The `stddev_sq` field holds the
square of the reported `stddev` (see `sampleVariance`). -/
structure Stats where
  count : ℕ
  min : ℚ
  max : ℚ
  avg : ℚ
  median : ℚ
  p95 : ℚ
  p99 : ℚ
  stddev_sq : ℚ
deriving Repr, DecidableEq

/-- Embedding of `PythonBenchmark.calculate_stats` (`benchmark_python.py`,
lines 71–89).  `if not times: return None`; otherwise the nanosecond samples
are converted to milliseconds into a fresh list `times_ms`, which is then
sorted in place (the argument `times` is never written through), and the
summary dictionary is built from `times_ms`. -/
def calculate_stats (times : List ℚ) : Option Stats :=
  if times = [] then none
  else
    let times_ms := List.insertionSort (· ≤ ·) (times.map (fun t => t / 1000000))
    let n := times_ms.length
    some {
      count := n
      min := pymin times_ms
      max := pymax times_ms
      avg := pymean times_ms
      median := pymedian times_ms
      p95 := if 0 < n then times_ms.getD (idx n (95/100)) 0 else 0
      p99 := if 0 < n then times_ms.getD (idx n (99/100)) 0 else 0
      stddev_sq := if 1 < n then sampleVariance times_ms else 0 }

/-- State-passing form of `calculate_stats`: the result paired with the
final contents of the caller's list.  In the source,
`times_ms = [t / 1_000_000 for t in times]` allocates a fresh list and
`times_ms.sort()` mutates only that copy; no statement writes through the
`times` argument, so its final contents equal its initial contents. -/
def calculate_stats_st (times : List ℚ) : Option Stats × List ℚ :=
  (calculate_stats times, times)

/-- The dictionary returned by `calc_stats` (`simple_python_benchmark.py`,
lines 39–49): like `Stats` but without `count` and `stddev`. -/
structure SimpleStats where
  min : ℚ
  max : ℚ
  avg : ℚ
  median : ℚ
  p95 : ℚ
  p99 : ℚ
deriving Repr, DecidableEq

/-- Embedding of `calc_stats` (`simple_python_benchmark.py`, lines 39–49), in
state-passing form.  Its first statement is `times.sort()`, which sorts
the caller's list **in place**, so the final contents of the argument are
its sorted permutation.  On an empty list `min(times)` raises
`ValueError` (embedded as `none`); the scripts only call it with lists of
100 and 1000 samples. -/
def calc_stats (times : List ℚ) : Option SimpleStats × List ℚ :=
  let sorted := List.insertionSort (· ≤ ·) times
  let n := sorted.length
  if 0 < n then
    (some {
      min := pymin sorted
      max := pymax sorted
      avg := pymean sorted
      median := pymedian sorted
      p95 := if 0 < n then sorted.getD (idx n (95/100)) 0 else 0
      p99 := if 0 < n then sorted.getD (idx n (99/100)) 0 else 0 }, sorted)
  else (none, sorted)

/-- The ratio computation of `print_comprehensive_results`
(`benchmark_python.py`, lines 319–324 and 331–334): the fastest mean is
`min` of the three means, and each adapter's ratio is its mean divided by
that fastest mean. -/
def ratios_to_fastest (py napi wasi : ℚ) : ℚ × ℚ × ℚ :=
  let fastest := min py (min napi wasi)
  (py / fastest, napi / fastest, wasi / fastest)

/-- The stats dictionary produced inside the embedded Node.js benchmark's
`calcStats` (`benchmark_python.py`, lines 164–174): `min`, `max`, `avg`,
`median`, `p95` only. -/
structure NapiStats where
  min : ℚ
  max : ℚ
  avg : ℚ
  median : ℚ
  p95 : ℚ
deriving Repr, DecidableEq

/-- The `nodejs_results` dictionary consumed by
`print_comprehensive_results`: per-phase Node.js stats plus the artifact
size. -/
structure NapiResults where
  startup : NapiStats
  operations : NapiStats
  file_size_kb : ℕ
deriving Repr, DecidableEq

/-- The `python_results` dictionary returned by
`PythonBenchmark.run_benchmark` (`benchmark_python.py`, lines 111–115).
The startup and operations summaries come from `calculate_stats` on the
50- and 1000-sample lists, hence are present whenever the report consumes
them. -/
structure PyResults where
  startup : Stats
  operations : Stats
  file_size_kb : ℕ
deriving Repr, DecidableEq

/-- The detailed comparison block printed by
`print_comprehensive_results` only under
`if python_results and nodejs_results:` (`benchmark_python.py`, lines
235–337): per-adapter startup and operation statistics (the WASI numbers
are the hard-coded constants `1.203` and `0.396`) and the two ratio
triples. -/
structure Detail where
  py_startup_avg : ℚ
  napi_startup_avg : ℚ
  wasi_startup_avg : ℚ
  py_startup_median : ℚ
  napi_startup_median : ℚ
  py_startup_p95 : ℚ
  napi_startup_p95 : ℚ
  py_ops_avg : ℚ
  napi_ops_avg : ℚ
  wasi_ops_avg : ℚ
  py_ops_median : ℚ
  napi_ops_median : ℚ
  startup_ratios : ℚ × ℚ × ℚ
  ops_ratios : ℚ × ℚ × ℚ
deriving Repr, DecidableEq

/-- The structured content of the report printed by
`print_comprehensive_results` (`benchmark_python.py`, lines 219–337):
the file-size lines (`'N/A'` for a missing adapter is embedded as
`none`), the hard-coded WASI size, and the detailed comparison block,
which the source emits only when **both** `python_results` and
`nodejs_results` are truthy. -/
structure ComparisonOutput where
  python_size : Option ℕ
  nodejs_size : Option ℕ
  wasi_size : ℕ
  detail : Option Detail
deriving Repr, DecidableEq

/-- Embedding of `print_comprehensive_results(python_results, nodejs_results)`
(`benchmark_python.py`, lines 219–337) as a function from the two
optional result dictionaries to the structured report content. -/
def print_comprehensive_results (python_results : Option PyResults)
    (nodejs_results : Option NapiResults) : ComparisonOutput :=
  { python_size := python_results.map (·.file_size_kb)
    nodejs_size := nodejs_results.map (·.file_size_kb)
    wasi_size := 50
    detail :=
      match python_results, nodejs_results with
      | some py, some njs =>
        some {
          py_startup_avg := py.startup.avg
          napi_startup_avg := njs.startup.avg
          wasi_startup_avg := 1203/1000
          py_startup_median := py.startup.median
          napi_startup_median := njs.startup.median
          py_startup_p95 := py.startup.p95
          napi_startup_p95 := njs.startup.p95
          py_ops_avg := py.operations.avg
          napi_ops_avg := njs.operations.avg
          wasi_ops_avg := 396/1000
          py_ops_median := py.operations.median
          napi_ops_median := njs.operations.median
          startup_ratios :=
            ratios_to_fastest py.startup.avg njs.startup.avg (1203/1000)
          ops_ratios :=
            ratios_to_fastest py.operations.avg njs.operations.avg (396/1000) }
      | _, _ => none }

/-- The ranking step of `benchmark_python` (`simple_python_benchmark.py`,
lines 78–83): the fixed list
`[("NAPI", 0.001206), ("Python", avg), ("WASI", 0.396)]` is sorted by
`results.sort(key=lambda x: x[1])` — a stable sort on the mean duration,
embedded by the (stable) `List.insertionSort` on the second component. -/
def operation_ranking (python_avg : ℚ) : List (String × ℚ) :=
  List.insertionSort (fun a b => a.2 ≤ b.2)
    [("NAPI", 1206/1000000), ("Python", python_avg), ("WASI", 396/1000)]

/-- The value returned by `PythonBenchmark.measure_time_ns`
(`benchmark_python.py`, lines 27–36): the operation's result, the elapsed
nanoseconds, and the same converted to milliseconds. -/
structure Measurement (α : Type) where
  result : α
  time_ns : ℤ
  time_ms : ℚ
deriving Repr, DecidableEq

/-- Embedding of `PythonBenchmark.measure_time_ns` (`benchmark_python.py`, lines
27–36).  The monotonic clock `time.perf_counter_ns` is modelled as a
function from a logical read counter to the value it returns; each call
performs two reads (`start` at counter `t`, `end` at counter `t + 1`) and
hands back the advanced counter.  The measured function is a pure value,
since the scripts never inspect more than its result. -/
def measure_time_ns (clock : ℕ → ℤ) (func : α) (t : ℕ) : Measurement α × ℕ :=
  let start := clock t
  let result := func
  let stop := clock (t + 1)
  ({ result := result, time_ns := stop - start,
     time_ms := ((stop - start : ℤ) : ℚ) / 1000000 }, t + 2)

/-- Embedding of `PythonBenchmark.benchmark_python_startup` (`benchmark_python.py`,
lines 38–53): run `iterations` measurements and collect each
measurement's `time_ns` into `self.results["startup"]`, in execution
order. -/
def benchmark_python_startup (clock : ℕ → ℤ) : ℕ → ℕ → List ℤ × ℕ
  | 0, t => ([], t)
  | iterations + 1, t =>
    let m := measure_time_ns clock () t
    let rest := benchmark_python_startup clock iterations m.2
    (m.1.time_ns :: rest.1, rest.2)

/-- Embedding of `PythonBenchmark.benchmark_python_operations` (`benchmark_python.py`,
lines 55–69): identical measurement loop collecting into
`self.results["operations"]`. -/
def benchmark_python_operations (clock : ℕ → ℤ) : ℕ → ℕ → List ℤ × ℕ
  | 0, t => ([], t)
  | iterations + 1, t =>
    let m := measure_time_ns clock () t
    let rest := benchmark_python_operations clock iterations m.2
    (m.1.time_ns :: rest.1, rest.2)

/-! ### Helper lemmas -/

lemma foldl_min_le_init (xs : List ℚ) (a : ℚ) : xs.foldl min a ≤ a := by
  induction xs generalizing a with
  | nil => simp
  | cons x xs ih =>
    simpa using le_trans (ih (min a x)) (min_le_left a x)

lemma foldl_min_le_mem (xs : List ℚ) (a x : ℚ) (hx : x ∈ xs) :
    xs.foldl min a ≤ x := by
  induction xs generalizing a with
  | nil => simp at hx
  | cons y ys ih =>
    rcases List.mem_cons.mp hx with rfl | hmem
    · simpa using le_trans (foldl_min_le_init ys (min a x)) (min_le_right a x)
    · simpa using ih (min a y) hmem

lemma le_foldl_max_init (xs : List ℚ) (a : ℚ) : a ≤ xs.foldl max a := by
  induction xs generalizing a with
  | nil => simp
  | cons x xs ih =>
    simpa using le_trans (le_max_left a x) (ih (max a x))

lemma le_foldl_max_mem (xs : List ℚ) (a x : ℚ) (hx : x ∈ xs) :
    x ≤ xs.foldl max a := by
  induction xs generalizing a with
  | nil => simp at hx
  | cons y ys ih =>
    rcases List.mem_cons.mp hx with rfl | hmem
    · simpa using le_trans (le_max_right a x) (le_foldl_max_init ys (max a x))
    · simpa using ih (max a y) hmem

lemma pymin_le {l : List ℚ} {x : ℚ} (hx : x ∈ l) : pymin l ≤ x := by
  cases l with
  | nil => simp at hx
  | cons y ys =>
    rcases List.mem_cons.mp hx with rfl | hmem
    · exact foldl_min_le_init ys x
    · exact foldl_min_le_mem ys y x hmem

lemma le_pymax {l : List ℚ} {x : ℚ} (hx : x ∈ l) : x ≤ pymax l := by
  cases l with
  | nil => simp at hx
  | cons y ys =>
    rcases List.mem_cons.mp hx with rfl | hmem
    · exact le_foldl_max_init ys x
    · exact le_foldl_max_mem ys y x hmem

lemma idx_95 (n : ℕ) : idx n (95/100) = 95 * n / 100 := by
  have h : (n : ℚ) * (95/100) = ((95 * n : ℕ) : ℚ) / ((100 : ℕ) : ℚ) := by
    push_cast; ring
  unfold idx
  rw [h, Rat.floor_natCast_div_natCast]
  omega

lemma idx_99 (n : ℕ) : idx n (99/100) = 99 * n / 100 := by
  have h : (n : ℚ) * (99/100) = ((99 * n : ℕ) : ℚ) / ((100 : ℕ) : ℚ) := by
    push_cast; ring
  unfold idx
  rw [h, Rat.floor_natCast_div_natCast]
  omega

lemma idx_95_lt {n : ℕ} (hn : 0 < n) : idx n (95/100) < n := by
  rw [idx_95]; omega

lemma idx_99_lt {n : ℕ} (hn : 0 < n) : idx n (99/100) < n := by
  rw [idx_99]; omega

lemma idx_95_le_idx_99 (n : ℕ) : idx n (95/100) ≤ idx n (99/100) := by
  rw [idx_95, idx_99]; omega

lemma getD_mem {l : List ℚ} {i : ℕ} (h : i < l.length) : l.getD i 0 ∈ l := by
  rw [List.getD_eq_getElem l 0 h]
  exact List.getElem_mem h

lemma sorted_getD_le {l : List ℚ} (hs : l.Sorted (· ≤ ·)) {i j : ℕ}
    (hij : i ≤ j) (hj : j < l.length) : l.getD i 0 ≤ l.getD j 0 := by
  have hi : i < l.length := lt_of_le_of_lt hij hj
  have h := hs.rel_get_of_le (a := ⟨i, hi⟩) (b := ⟨j, hj⟩) (Fin.mk_le_mk.mpr hij)
  rw [List.getD_eq_getElem l 0 hi, List.getD_eq_getElem l 0 hj]
  simpa [List.get_eq_getElem] using h

lemma pymedian_bounds {l : List ℚ} (hl : l ≠ []) :
    pymin l ≤ pymedian l ∧ pymedian l ≤ pymax l := by
  have hperm : List.Perm (List.insertionSort (· ≤ ·) l) l :=
    List.perm_insertionSort _ l
  have hpos : 0 < l.length := List.length_pos.mpr hl
  simp only [pymedian]
  generalize hg : List.insertionSort (· ≤ ·) l = s
  rw [hg] at hperm
  have hlen : s.length = l.length := hperm.length_eq
  have hmem : ∀ i, i < s.length → s.getD i 0 ∈ l := fun i hi =>
    hperm.mem_iff.mp (getD_mem hi)
  by_cases hodd : s.length % 2 = 1
  · rw [if_pos hodd]
    have hi : s.length / 2 < s.length := by omega
    exact ⟨pymin_le (hmem _ hi), le_pymax (hmem _ hi)⟩
  · rw [if_neg hodd]
    have h2 : 2 ≤ s.length := by omega
    have hi1 : s.length / 2 - 1 < s.length := by omega
    have hi2 : s.length / 2 < s.length := by omega
    have ha1 := pymin_le (hmem _ hi1)
    have ha2 := pymin_le (hmem _ hi2)
    have hb1 := le_pymax (hmem _ hi1)
    have hb2 := le_pymax (hmem _ hi2)
    constructor <;> linarith

lemma length_sortedMs (times : List ℚ) :
    (List.insertionSort (· ≤ ·) (times.map (fun t => t / 1000000))).length
      = times.length := by
  rw [List.length_insertionSort, List.length_map]

lemma calculate_stats_of_ne_nil {times : List ℚ} (h : times ≠ []) :
    calculate_stats times =
      some {
        count := times.length
        min := pymin (List.insertionSort (· ≤ ·) (times.map (fun t => t / 1000000)))
        max := pymax (List.insertionSort (· ≤ ·) (times.map (fun t => t / 1000000)))
        avg := pymean (List.insertionSort (· ≤ ·) (times.map (fun t => t / 1000000)))
        median := pymedian (List.insertionSort (· ≤ ·) (times.map (fun t => t / 1000000)))
        p95 := (List.insertionSort (· ≤ ·) (times.map (fun t => t / 1000000))).getD
          (idx times.length (95/100)) 0
        p99 := (List.insertionSort (· ≤ ·) (times.map (fun t => t / 1000000))).getD
          (idx times.length (99/100)) 0
        stddev_sq := if 1 < times.length then
          sampleVariance (List.insertionSort (· ≤ ·) (times.map (fun t => t / 1000000)))
          else 0 } := by
  have hpos : 0 < times.length := List.length_pos.mpr h
  simp only [calculate_stats, if_neg h, length_sortedMs, if_pos hpos]

lemma calc_stats_of_ne_nil {times : List ℚ} (h : times ≠ []) :
    calc_stats times =
      (some {
        min := pymin (List.insertionSort (· ≤ ·) times)
        max := pymax (List.insertionSort (· ≤ ·) times)
        avg := pymean (List.insertionSort (· ≤ ·) times)
        median := pymedian (List.insertionSort (· ≤ ·) times)
        p95 := (List.insertionSort (· ≤ ·) times).getD
          (idx times.length (95/100)) 0
        p99 := (List.insertionSort (· ≤ ·) times).getD
          (idx times.length (99/100)) 0 },
       List.insertionSort (· ≤ ·) times) := by
  have hpos : 0 < times.length := List.length_pos.mpr h
  simp only [calc_stats, List.length_insertionSort, if_pos hpos]

/-! ### Claim theorems -/

/-- C4: summarizing an empty sample set yields the error result (`None`
in the source, `Option.none` here), not an ordinary zero-filled summary
value. -/
theorem empty_sample_set_fails : calculate_stats ([] : List ℚ) = none := by
  simp [calculate_stats]

/-- C10: for every non-empty sample list the percentile index
expressions `int(n * 0.95)` and `int(n * 0.99)` are strictly below the
list length, so the indexing never goes out of bounds and both statistics
functions succeed (the `if n > 0 else 0` fallbacks are never taken). -/
theorem percentile_index_in_bounds (times : List ℚ) (h : times ≠ []) :
    idx times.length (95/100) < times.length ∧
    idx times.length (99/100) < times.length ∧
    (calculate_stats times).isSome ∧ (calc_stats times).1.isSome := by
  have hpos : 0 < times.length := List.length_pos.mpr h
  refine ⟨idx_95_lt hpos, idx_99_lt hpos, ?_, ?_⟩
  · rw [calculate_stats_of_ne_nil h]; rfl
  · rw [calc_stats_of_ne_nil h]; rfl

theorem percentile_index_in_bounds_witness :
    idx [(1:ℚ)].length (95/100) < [(1:ℚ)].length ∧
    idx [(1:ℚ)].length (99/100) < [(1:ℚ)].length ∧
    (calculate_stats [(1:ℚ)]).isSome ∧ (calc_stats [(1:ℚ)]).1.isSome :=
  percentile_index_in_bounds [(1:ℚ)] (by decide)

/-- C1: for every non-empty sample list, both statistics functions
compute the p-th percentile by sorting the values they operate on in
ascending order and taking the element at index `⌊p · n⌋` clamped to
`n - 1` (the clamp never binds, so this coincides with the source's
unclamped `times[int(n * p)]`): the `p95` and `p99` fields equal the
sorted list's elements at those indices for `p = 0.95` and `p = 0.99`. -/
theorem percentile_indexing_correct (times : List ℚ) (h : times ≠ []) :
    (∃ s : Stats, calculate_stats times = some s ∧
      s.p95 = (List.insertionSort (· ≤ ·) (times.map (fun t => t / 1000000))).getD
        (min (idx times.length (95/100)) (times.length - 1)) 0 ∧
      s.p99 = (List.insertionSort (· ≤ ·) (times.map (fun t => t / 1000000))).getD
        (min (idx times.length (99/100)) (times.length - 1)) 0) ∧
    (∃ s2 : SimpleStats, (calc_stats times).1 = some s2 ∧
      s2.p95 = (List.insertionSort (· ≤ ·) times).getD
        (min (idx times.length (95/100)) (times.length - 1)) 0 ∧
      s2.p99 = (List.insertionSort (· ≤ ·) times).getD
        (min (idx times.length (99/100)) (times.length - 1)) 0) := by
  have hpos : 0 < times.length := List.length_pos.mpr h
  have h95 : min (idx times.length (95/100)) (times.length - 1)
      = idx times.length (95/100) := by
    have := idx_95_lt hpos; omega
  have h99 : min (idx times.length (99/100)) (times.length - 1)
      = idx times.length (99/100) := by
    have := idx_99_lt hpos; omega
  constructor
  · exact ⟨_, calculate_stats_of_ne_nil h, by rw [h95], by rw [h99]⟩
  · exact ⟨_, by rw [calc_stats_of_ne_nil h], by rw [h95], by rw [h99]⟩

theorem percentile_indexing_correct_witness :
    (∃ s : Stats, calculate_stats [(1:ℚ)] = some s ∧
      s.p95 = (List.insertionSort (· ≤ ·) ([(1:ℚ)].map (fun t => t / 1000000))).getD
        (min (idx [(1:ℚ)].length (95/100)) ([(1:ℚ)].length - 1)) 0 ∧
      s.p99 = (List.insertionSort (· ≤ ·) ([(1:ℚ)].map (fun t => t / 1000000))).getD
        (min (idx [(1:ℚ)].length (99/100)) ([(1:ℚ)].length - 1)) 0) ∧
    (∃ s2 : SimpleStats, (calc_stats [(1:ℚ)]).1 = some s2 ∧
      s2.p95 = (List.insertionSort (· ≤ ·) [(1:ℚ)]).getD
        (min (idx [(1:ℚ)].length (95/100)) ([(1:ℚ)].length - 1)) 0 ∧
      s2.p99 = (List.insertionSort (· ≤ ·) [(1:ℚ)]).getD
        (min (idx [(1:ℚ)].length (99/100)) ([(1:ℚ)].length - 1)) 0) :=
  percentile_indexing_correct [(1:ℚ)] (by decide)

/-- C2: for every non-empty sample list, `calculate_stats` returns a
summary whose `count` is the list's length, with
`min ≤ median ≤ max` and `p95 ≤ p99`. -/
theorem summary_order_bounds (times : List ℚ) (h : times ≠ []) :
    ∃ s : Stats, calculate_stats times = some s ∧
      s.count = times.length ∧
      s.min ≤ s.median ∧ s.median ≤ s.max ∧ s.p95 ≤ s.p99 := by
  have hpos : 0 < times.length := List.length_pos.mpr h
  have hmsne : List.insertionSort (· ≤ ·) (times.map (fun t => t / 1000000)) ≠ [] := by
    intro hnil
    have := length_sortedMs times
    rw [hnil] at this
    simp only [List.length_nil] at this
    omega
  obtain ⟨hmed1, hmed2⟩ := pymedian_bounds hmsne
  have hsorted : (List.insertionSort (· ≤ ·)
      (times.map (fun t => t / 1000000))).Sorted (· ≤ ·) :=
    List.sorted_insertionSort _ _
  have hp : (List.insertionSort (· ≤ ·) (times.map (fun t => t / 1000000))).getD
      (idx times.length (95/100)) 0 ≤
      (List.insertionSort (· ≤ ·) (times.map (fun t => t / 1000000))).getD
      (idx times.length (99/100)) 0 := by
    refine sorted_getD_le hsorted (idx_95_le_idx_99 _) ?_
    rw [length_sortedMs]
    exact idx_99_lt hpos
  exact ⟨_, calculate_stats_of_ne_nil h, rfl, hmed1, hmed2, hp⟩

theorem summary_order_bounds_witness :
    ∃ s : Stats, calculate_stats [(1:ℚ)] = some s ∧
      s.count = [(1:ℚ)].length ∧
      s.min ≤ s.median ∧ s.median ≤ s.max ∧ s.p95 ≤ s.p99 :=
  summary_order_bounds [(1:ℚ)] (by decide)

/-- C3 counterexample: the standard deviation reported by
`calculate_stats` is **not** the population standard deviation.  For the
samples `[0, 2000000]` (milliseconds `[0, 2]`) the population variance is
`1` (population standard deviation `1`), but the code calls
`statistics.stdev`, whose square is `2` here — so the reported standard
deviation is `√2 ≠ 1` (squares of non-negative reals are equal iff the
numbers are). -/
theorem stddev_not_population_counterexample :
    (calculate_stats [(0:ℚ), 2000000]).map Stats.stddev_sq = some 2 ∧
    popVariance (List.insertionSort (· ≤ ·)
      ([(0:ℚ), 2000000].map (fun t => t / 1000000))) = 1 ∧ (2:ℚ) ≠ 1 := by
  have hsort : List.insertionSort (· ≤ ·)
      ([(0:ℚ), 2000000].map (fun t => t / 1000000)) = [0, 2] := by
    norm_num [List.insertionSort, List.orderedInsert]
  refine ⟨?_, ?_, by norm_num⟩
  · rw [calculate_stats_of_ne_nil (by decide)]
    show some (if 1 < ([(0:ℚ), 2000000]).length then sampleVariance _ else 0)
      = some 2
    rw [if_pos (by norm_num), hsort]
    norm_num [sampleVariance, sumSqDev, pymean, List.sum_cons, List.sum_nil]
  · rw [hsort]
    norm_num [popVariance, sumSqDev, pymean, List.sum_cons, List.sum_nil]

/-- C3 amended: the standard deviation reported by `calculate_stats` for
`n ≥ 2` samples is the **sample** standard deviation (variance computed
by dividing by `n - 1`), which exceeds the population variance by the
factor `n / (n - 1)`.  Stated on the squares of the standard deviations
(see `sampleVariance`). -/
theorem stddev_is_sample_variance (times : List ℚ) (h2 : 2 ≤ times.length) :
    ∃ s : Stats, calculate_stats times = some s ∧
      s.stddev_sq = sampleVariance (List.insertionSort (· ≤ ·)
        (times.map (fun t => t / 1000000))) ∧
      s.stddev_sq = ((times.length : ℚ) / ((times.length : ℚ) - 1)) *
        popVariance (List.insertionSort (· ≤ ·)
          (times.map (fun t => t / 1000000))) := by
  have hne : times ≠ [] := by
    intro hnil; rw [hnil] at h2; simp at h2
  have h1 : 1 < times.length := by omega
  refine ⟨_, calculate_stats_of_ne_nil hne, ?_, ?_⟩
  · show (if 1 < times.length then _ else 0) = _
    rw [if_pos h1]
  · show (if 1 < times.length then _ else 0) = _
    rw [if_pos h1]
    unfold sampleVariance popVariance
    rw [length_sortedMs]
    have hn0 : (times.length : ℚ) ≠ 0 := Nat.cast_ne_zero.mpr (by omega)
    have hn1 : (times.length : ℚ) - 1 ≠ 0 := by
      have h2q : (2:ℚ) ≤ (times.length : ℚ) := by exact_mod_cast h2
      intro hc
      have hone : (times.length : ℚ) = 1 := by linarith
      linarith
    field_simp
    ring

theorem stddev_is_sample_variance_witness :
    ∃ s : Stats, calculate_stats [(0:ℚ), 2000000, 4000000] = some s ∧
      s.stddev_sq = sampleVariance (List.insertionSort (· ≤ ·)
        ([(0:ℚ), 2000000, 4000000].map (fun t => t / 1000000))) ∧
      s.stddev_sq = (([(0:ℚ), 2000000, 4000000].length : ℚ) /
          (([(0:ℚ), 2000000, 4000000].length : ℚ) - 1)) *
        popVariance (List.insertionSort (· ≤ ·)
          ([(0:ℚ), 2000000, 4000000].map (fun t => t / 1000000))) :=
  stddev_is_sample_variance [(0:ℚ), 2000000, 4000000] (by decide)

/-- C5: with positive means, each adapter's ratio-to-fastest equals its
mean divided by the minimum mean, every ratio is at least `1`, and the
ratio of whichever adapter attains the minimum is exactly `1`. -/
theorem ratio_to_fastest_bounds (py napi wasi : ℚ)
    (hpy : 0 < py) (hnapi : 0 < napi) (hwasi : 0 < wasi) :
    ratios_to_fastest py napi wasi =
      (py / min py (min napi wasi), napi / min py (min napi wasi),
        wasi / min py (min napi wasi)) ∧
    1 ≤ (ratios_to_fastest py napi wasi).1 ∧
    1 ≤ (ratios_to_fastest py napi wasi).2.1 ∧
    1 ≤ (ratios_to_fastest py napi wasi).2.2 ∧
    (py ≤ napi → py ≤ wasi → (ratios_to_fastest py napi wasi).1 = 1) ∧
    (napi ≤ py → napi ≤ wasi → (ratios_to_fastest py napi wasi).2.1 = 1) ∧
    (wasi ≤ py → wasi ≤ napi → (ratios_to_fastest py napi wasi).2.2 = 1) := by
  have hm : 0 < min py (min napi wasi) := lt_min hpy (lt_min hnapi hwasi)
  refine ⟨rfl, ?_, ?_, ?_, ?_, ?_, ?_⟩
  · exact (one_le_div hm).mpr (min_le_left _ _)
  · exact (one_le_div hm).mpr (le_trans (min_le_right _ _) (min_le_left _ _))
  · exact (one_le_div hm).mpr (le_trans (min_le_right _ _) (min_le_right _ _))
  · intro h1 h2
    show py / min py (min napi wasi) = 1
    rw [min_eq_left (le_min h1 h2)]
    exact div_self hpy.ne'
  · intro h1 h2
    show napi / min py (min napi wasi) = 1
    rw [min_eq_left h2, min_eq_right h1]
    exact div_self hnapi.ne'
  · intro h1 h2
    show wasi / min py (min napi wasi) = 1
    rw [min_eq_right h2, min_eq_right h1]
    exact div_self hwasi.ne'

theorem ratio_to_fastest_bounds_witness :
    ratios_to_fastest 1 2 3 =
      ((1:ℚ) / min 1 (min 2 3), (2:ℚ) / min 1 (min 2 3),
        (3:ℚ) / min 1 (min 2 3)) ∧
    1 ≤ (ratios_to_fastest 1 2 3).1 ∧
    1 ≤ (ratios_to_fastest 1 2 3).2.1 ∧
    1 ≤ (ratios_to_fastest 1 2 3).2.2 ∧
    ((1:ℚ) ≤ 2 → (1:ℚ) ≤ 3 → (ratios_to_fastest 1 2 3).1 = 1) ∧
    ((2:ℚ) ≤ 1 → (2:ℚ) ≤ 3 → (ratios_to_fastest 1 2 3).2.1 = 1) ∧
    ((3:ℚ) ≤ 1 → (3:ℚ) ≤ 2 → (ratios_to_fastest 1 2 3).2.2 = 1) :=
  ratio_to_fastest_bounds 1 2 3 (by norm_num) (by norm_num) (by norm_num)

/-- C6 counterexample: the claim that "the statistics function" leaves
its input in the original insertion order fails for `calc_stats`
(`simple_python_benchmark.py`): its first statement `times.sort()` sorts
the caller's list in place, so after the call the input `[2, 1]` holds
`[1, 2]`, not its original order. -/
theorem calc_stats_mutates_input :
    (calc_stats [(2:ℚ), 1]).2 ≠ [(2:ℚ), 1] ∧
    (calc_stats [(2:ℚ), 1]).2 = [(1:ℚ), 2] := by
  have h : (calc_stats [(2:ℚ), 1]).2 = [(1:ℚ), 2] := by
    rw [calc_stats_of_ne_nil (by decide)]
    norm_num [List.insertionSort, List.orderedInsert]
  refine ⟨?_, h⟩
  rw [h]
  intro hc
  simp only [List.cons.injEq] at hc
  exact absurd hc.1 (by norm_num)

/-- C6 amended: `calculate_stats` (`benchmark_python.py`) does not mutate
its input — it sorts a derived copy, so the caller's list is unchanged —
but `calc_stats` (`simple_python_benchmark.py`) sorts the given list in
place, leaving it as the ascending permutation of the original elements
(same elements, sorted order) rather than in insertion order. -/
theorem stats_mutation_behavior :
    (∀ times : List ℚ, (calculate_stats_st times).2 = times) ∧
    (∀ times : List ℚ,
      (calc_stats times).2 = List.insertionSort (· ≤ ·) times) ∧
    (∀ times : List ℚ, List.Perm (calc_stats times).2 times) := by
  have hsnd : ∀ times : List ℚ,
      (calc_stats times).2 = List.insertionSort (· ≤ ·) times := by
    intro times
    simp only [calc_stats]
    split <;> rfl
  refine ⟨fun times => rfl, hsnd, fun times => ?_⟩
  rw [hsnd times]
  exact List.perm_insertionSort _ times

/-- C7 counterexample: when the Python adapter is unavailable
(`python_results is None`) the report produced by
`print_comprehensive_results` does **not** contain the Node.js adapter's
full results: every per-phase statistic of the surviving adapter appears
only in the detailed block, which the source guards with
`if python_results and nodejs_results:`, so with one adapter missing the
other's results are dropped (only its file size survives as a line next
to the `'N/A'` entry). -/
theorem report_drops_other_adapter :
    (print_comprehensive_results none
      (some ⟨⟨1, 1, 1, 1, 1⟩, ⟨1, 1, 1, 1, 1⟩, 607⟩)).detail = none ∧
    (print_comprehensive_results none
      (some ⟨⟨1, 1, 1, 1, 1⟩, ⟨1, 1, 1, 1, 1⟩, 607⟩)).nodejs_size
      = some 607 ∧
    (print_comprehensive_results none
      (some ⟨⟨1, 1, 1, 1, 1⟩, ⟨1, 1, 1, 1, 1⟩, 607⟩)).python_size = none :=
  ⟨rfl, rfl, rfl⟩

/-- C7 amended: if one of the two measured adapters is unavailable the
run still completes and produces the report, with a `none` (printed
`'N/A'`) size entry for the missing adapter and the surviving adapter's
file size present; but the detailed per-adapter statistics block is
produced only when **both** adapters' results are present, so the
surviving adapter's detailed results are omitted as well. -/
theorem report_on_missing_adapter :
    (∀ njs : NapiResults,
      (print_comprehensive_results none (some njs)).python_size = none ∧
      (print_comprehensive_results none (some njs)).nodejs_size
        = some njs.file_size_kb ∧
      (print_comprehensive_results none (some njs)).detail = none) ∧
    (∀ py : PyResults,
      (print_comprehensive_results (some py) none).python_size
        = some py.file_size_kb ∧
      (print_comprehensive_results (some py) none).nodejs_size = none ∧
      (print_comprehensive_results (some py) none).detail = none) ∧
    (∀ (py : PyResults) (njs : NapiResults),
      (print_comprehensive_results (some py) (some njs)).detail ≠ none) :=
  ⟨fun _ => ⟨rfl, rfl, rfl⟩, fun _ => ⟨rfl, rfl, rfl⟩,
    fun _ _ => Option.some_ne_none _⟩

lemma rel_of_le_of_lt_str {a b : String × ℚ} (hq : a.2 ≤ b.2)
    (hs : a.1 < b.1) : a.2 < b.2 ∨ (a.2 = b.2 ∧ a.1 < b.1) := by
  rcases lt_or_eq_of_le hq with h | h
  · exact Or.inl h
  · exact Or.inr ⟨h, hs⟩

lemma napi_lt_python : ("NAPI" : String) < "Python" := by
  rw [String.lt_iff_toList_lt]; decide

lemma napi_lt_wasi : ("NAPI" : String) < "WASI" := by
  rw [String.lt_iff_toList_lt]; decide

lemma python_lt_wasi : ("Python" : String) < "WASI" := by
  rw [String.lt_iff_toList_lt]; decide

lemma pairwise_three {α : Type} {R : α → α → Prop} {x y z : α}
    (hxy : R x y) (hxz : R x z) (hyz : R y z) :
    List.Pairwise R [x, y, z] := by
  refine List.Pairwise.cons ?_ (List.Pairwise.cons ?_
    (List.pairwise_singleton _ _))
  · intro b hb
    simp only [List.mem_cons, List.mem_singleton, List.not_mem_nil,
      or_false] at hb
    rcases hb with rfl | rfl
    exacts [hxy, hxz]
  · intro b hb
    simp only [List.mem_singleton] at hb
    subst hb
    exact hyz

/-- C8: the ranking built by `benchmark_python`
(`simple_python_benchmark.py`) — a stable sort of
`[("NAPI", 0.001206), ("Python", avg), ("WASI", 0.396)]` by mean — is,
for every Python mean, strictly ascending by mean with ties broken by
the lexicographically smaller label first (the fixed insertion order of
the list is lexicographic, and a stable sort keeps it on ties); it is
also a permutation of the input, so the ranking is deterministic. -/
theorem ranking_sorted_lex_ties (python_avg : ℚ) :
    List.Pairwise (fun a b : String × ℚ =>
      a.2 < b.2 ∨ (a.2 = b.2 ∧ a.1 < b.1)) (operation_ranking python_avg) ∧
    List.Perm (operation_ranking python_avg)
      [("NAPI", 1206/1000000), ("Python", python_avg), ("WASI", 396/1000)] := by
  constructor
  · unfold operation_ranking
    simp only [List.insertionSort, List.orderedInsert]
    by_cases h1 : python_avg ≤ (396/1000 : ℚ)
    · rw [if_pos h1]
      simp only [List.orderedInsert]
      by_cases h2 : (1206/1000000 : ℚ) ≤ python_avg
      · rw [if_pos h2]
        exact pairwise_three (rel_of_le_of_lt_str h2 napi_lt_python)
          (rel_of_le_of_lt_str (by norm_num) napi_lt_wasi)
          (rel_of_le_of_lt_str h1 python_lt_wasi)
      · rw [if_neg h2, if_pos (show (1206/1000000 : ℚ) ≤ 396/1000 by norm_num)]
        exact pairwise_three (Or.inl (not_le.mp h2))
          (rel_of_le_of_lt_str h1 python_lt_wasi)
          (rel_of_le_of_lt_str (by norm_num) napi_lt_wasi)
    · rw [if_neg h1]
      simp only [List.orderedInsert]
      rw [if_pos (show (1206/1000000 : ℚ) ≤ 396/1000 by norm_num)]
      have hc : (1206/1000000 : ℚ) < 396/1000 := by norm_num
      exact pairwise_three (Or.inl hc)
        (Or.inl (hc.trans (not_le.mp h1)))
        (Or.inl (not_le.mp h1))
  · unfold operation_ranking
    exact List.perm_insertionSort _ _

lemma startup_mem_nonneg (clock : ℕ → ℤ) (hmono : Monotone clock) :
    ∀ (iterations t : ℕ) (x : ℤ),
      x ∈ (benchmark_python_startup clock iterations t).1 → 0 ≤ x := by
  intro iterations
  induction iterations with
  | zero =>
    intro t x hx
    simp [benchmark_python_startup] at hx
  | succ n ih =>
    intro t x hx
    simp only [benchmark_python_startup, measure_time_ns] at hx
    rcases List.mem_cons.mp hx with rfl | hmem
    · exact sub_nonneg.mpr (hmono (Nat.le_succ t))
    · exact ih _ _ hmem

lemma operations_mem_nonneg (clock : ℕ → ℤ) (hmono : Monotone clock) :
    ∀ (iterations t : ℕ) (x : ℤ),
      x ∈ (benchmark_python_operations clock iterations t).1 → 0 ≤ x := by
  intro iterations
  induction iterations with
  | zero =>
    intro t x hx
    simp [benchmark_python_operations] at hx
  | succ n ih =>
    intro t x hx
    simp only [benchmark_python_operations, measure_time_ns] at hx
    rcases List.mem_cons.mp hx with rfl | hmem
    · exact sub_nonneg.mpr (hmono (Nat.le_succ t))
    · exact ih _ _ hmem

/-- C9: with a monotone clock (the documented contract of
`time.perf_counter_ns`), every duration recorded by the startup and
operations benchmark loops is the difference of a later clock reading
minus an earlier one, hence non-negative. -/
theorem recorded_durations_nonneg (clock : ℕ → ℤ) (hmono : Monotone clock) :
    (∀ (iterations t : ℕ) (x : ℤ),
      x ∈ (benchmark_python_startup clock iterations t).1 → 0 ≤ x) ∧
    (∀ (iterations t : ℕ) (x : ℤ),
      x ∈ (benchmark_python_operations clock iterations t).1 → 0 ≤ x) :=
  ⟨startup_mem_nonneg clock hmono, operations_mem_nonneg clock hmono⟩

theorem recorded_durations_nonneg_witness :
    0 ≤ ((benchmark_python_startup (fun n => (n : ℤ)) 2 0).1.headD 0) ∧
    0 ≤ ((benchmark_python_operations (fun n => (n : ℤ)) 2 0).1.headD 0) :=
  ⟨(recorded_durations_nonneg (fun n => (n : ℤ))
      (fun _ _ hab => Int.ofNat_le.mpr hab)).1 2 0 _ (by decide),
   (recorded_durations_nonneg (fun n => (n : ℤ))
      (fun _ _ hab => Int.ofNat_le.mpr hab)).2 2 0 _ (by decide)⟩

end SCBench
